import Mathlib

/-!
Verification of the untrusted-HTML ingestion pipeline of the hydra
game-launcher client (steam news modal / steam news section).

The development shallowly embeds, over `List Char` and a DOM-like tree
type, the functions

  * `absolutizeUrl` / `isHttpUrl`   (URL normalizer and scheme gate),
  * `preprocessSteamNewsHtml`       (macro / BBCode preprocessor),
  * `sanitizeNewsHtml`              (allow-list HTML sanitizer),
  * `extractFirstImageSrc`          (preview image extractor),
  * the news-card / news-modal preview image fallback chains,

translated from `steam-news-modal.tsx` and `steam-news-section.tsx`.
The browser-provided pieces the code relies on (the WHATWG `URL`
constructor, the `innerHTML` fragment parser and serializer, reflected
DOM url properties) are modelled explicitly; each model carries a doc
comment stating what it covers.
-/

/-! ### Platform model: the WHATWG URL constructor

`new URL(value)` (no base argument) as used by `isHttpUrl` and the
preview extractors.  Only the success/failure of parsing and the
resulting scheme are relevant to the code under verification, so the
model computes exactly those: input trimming, scheme parsing, and — for
special schemes — authority/host/port validation (the failure cases of
`new URL` for `http`/`https` inputs).  Percent-encoding, IDNA domain
normalization and IPv4/IPv6 digit validation are not modelled; for
hosts made of ordinary ASCII the model agrees with the platform.
-/

/-- C0 controls and space: stripped from both ends by the URL parser. -/
def isC0OrSpace (c : Char) : Bool := c.val ≤ 32

/-- ASCII tab or newline: removed everywhere by the URL parser. -/
def isTabOrNL (c : Char) : Bool := c = '\t' || c = '\n' || c = '\r'

/-- Strip leading and trailing C0 controls and spaces. -/
def trimC0 (cs : List Char) : List Char :=
  ((cs.dropWhile isC0OrSpace).reverse.dropWhile isC0OrSpace).reverse

/-- First character of a URL scheme: an ASCII alpha. -/
def isSchemeStart (c : Char) : Bool := c.isAlpha

/-- Subsequent characters of a URL scheme. -/
def isSchemeChar (c : Char) : Bool :=
  c.isAlphanum || c = '+' || c = '-' || c = '.'

/-- Scheme scanning loop: accumulate scheme characters up to a `:`. -/
def splitSchemeGo (acc : List Char) : List Char → Option (List Char × List Char)
  | [] => none
  | c :: rest =>
    if c = ':' then some (acc.reverse, rest)
    else if isSchemeChar c then splitSchemeGo (c :: acc) rest
    else none

/-- Split `scheme:rest`; `none` when the input has no valid scheme
(then `new URL` with no base fails). -/
def splitScheme : List Char → Option (List Char × List Char)
  | [] => none
  | c :: rest => if isSchemeStart c then splitSchemeGo [c] rest else none

/-- Code points that make host parsing fail for special schemes. -/
def isForbiddenHostChar (c : Char) : Bool :=
  c.val = 0 || c = ' ' || c = '#' || c = '/' || c = ':' || c = '<' ||
  c = '>' || c = '?' || c = '@' || c = '[' || c = '\\' || c = ']' ||
  c = '^' || c = '|'

/-- Schemes with mandatory authority parsing (`file` handled apart). -/
def specialSchemes : List (List Char) :=
  [ "http".data, "https".data, "ws".data, "wss".data, "ftp".data ]

/-- Part of the authority after the last `@` (userinfo is dropped). -/
def afterLastAt (cs : List Char) : List Char :=
  ((cs.reverse).takeWhile (fun c => c ≠ '@')).reverse

/-- Host/port validation for special schemes: non-empty host without
forbidden code points, numeric (or empty) port.  A `[`-bracketed host
is accepted when the closing bracket is present. -/
def validHostPort (hp : List Char) : Bool :=
  match hp with
  | [] => false
  | '[' :: rest => rest.contains ']'
  | _ =>
    let host := hp.takeWhile (fun c => c ≠ ':')
    let port := (hp.dropWhile (fun c => c ≠ ':')).drop 1
    !host.isEmpty && host.all (fun c => !isForbiddenHostChar c) &&
      port.all Char.isDigit

/-- After the scheme of a special-scheme URL: skip every `/` and `\`,
then validate the authority up to the first path/query/fragment
delimiter. -/
def validSpecialAuthority (rest : List Char) : Bool :=
  let afterSlashes := rest.dropWhile (fun c => c = '/' || c = '\\')
  let authority :=
    afterSlashes.takeWhile (fun c => c ≠ '/' && c ≠ '\\' && c ≠ '?' && c ≠ '#')
  validHostPort (afterLastAt authority)

/-- Outcome of the URL constructor: the code only ever reads the
scheme (through `u.protocol`). -/
structure UrlParts where
  scheme : String
deriving Repr, DecidableEq

/-- The `protocol` property of a parsed URL: lower-case scheme followed
by `:`. -/
def UrlParts.protocol (u : UrlParts) : String := u.scheme ++ ":"

/-- The WHATWG URL constructor over characters. -/
def urlParseChars (input : List Char) : Option UrlParts :=
  let cleaned := (trimC0 input).filter (fun c => !isTabOrNL c)
  match splitScheme cleaned with
  | none => none
  | some (schemeCs, rest) =>
    let scheme := schemeCs.map Char.toLower
    if specialSchemes.contains scheme then
      if validSpecialAuthority rest then some ⟨String.mk scheme⟩ else none
    else if scheme = "file".data then some ⟨"file"⟩
    else some ⟨String.mk scheme⟩

/-- `new URL(s)` (no base). -/
def urlParse (s : String) : Option UrlParts := urlParseChars s.data

/-! ### URL normalizer and scheme gate (`steam-news-modal.tsx`) -/

/-- Does the string begin with two slashes (a protocol-relative URL)?
Models `value.startsWith("//")`. -/
def startsWithSlashSlash (cs : List Char) : Bool :=
  match cs with
  | c1 :: c2 :: _ => c1 = '/' && c2 = '/'
  | _ => false

/-- `absolutizeUrl`: prefix `https:` onto a value that starts with
`//`; leave every other value unchanged. -/
def absolutizeUrl (value : String) : String :=
  if startsWithSlashSlash value.data then "https:" ++ value else value

/-- `isHttpUrl`: parse the absolutized value with `new URL`; accept
exactly the protocols `http:` and `https:`; a parse failure (the
`catch` branch) yields `false`. -/
def isHttpUrl (value : String) : Bool :=
  match urlParse (absolutizeUrl value) with
  | some u => u.protocol == "http:" || u.protocol == "https:"
  | none => false

/-- Definition following the words of the spec (§4.1): `normalize`
rewrites a leading `//` to an explicit `https://`. -/
def normalizeSpec (s : String) : String :=
  if startsWithSlashSlash s.data then "https://" ++ String.mk (s.data.drop 2)
  else s

/-- Definition following the words of the spec (§4.1):
`isSafeAbsoluteUrl` is true iff the normalized value parses as a URL
whose scheme is exactly `http` or `https`. -/
def isSafeAbsoluteUrlSpec (s : String) : Bool :=
  match urlParse (normalizeSpec s) with
  | some u => u.scheme == "http" || u.scheme == "https"
  | none => false

/-! ### Markup preprocessor (`preprocessSteamNewsHtml`, modal revision)

The JavaScript regex substitutions are modelled over `List Char`:
plain global string replacement for the macro and `src="//` / `href="//`
rewrites, and dedicated scanners for the BBCode patterns.  Each scanner
reproduces the semantics of the non-greedy, case-insensitive,
global-replace regexes of the source: leftmost match, capture up to the
first closing token, `.` not matching a newline unless the regex has
the `s` flag, scanning resuming after the replaced match.  The scanners
carry a fuel argument (they consume at least one character per step, so
the supplied fuel `length + 1` never runs out). -/

/-- Global replacement of a literal pattern, left to right,
non-overlapping: `String.prototype.replace` with a `g` regex of
literal characters. -/
def replaceAllGo (pat rep : List Char) : Nat → List Char → List Char
  | 0, cs => cs
  | _, [] => []
  | fuel + 1, c :: cs =>
    if pat.isPrefixOf (c :: cs) then
      rep ++ replaceAllGo pat rep fuel ((c :: cs).drop pat.length)
    else c :: replaceAllGo pat rep fuel cs

/-- Entry point for `replaceAllGo` with sufficient fuel. -/
def replaceAll (pat rep cs : List Char) : List Char :=
  replaceAllGo pat rep (cs.length + 1) cs

/-- Case-insensitive literal token match at the head of the input
(`tok` given in lower case); returns the rest of the input. -/
def matchTokCI : List Char → List Char → Option (List Char)
  | [], cs => some cs
  | _, [] => none
  | p :: ps, c :: cs => if Char.toLower c = p then matchTokCI ps cs else none

/-- Scan for the first occurrence of a closing token (lazy `(.*?)`
followed by the token): returns the captured text and the rest after
the token.  Without `allowNL` (no `s` regex flag) a newline aborts the
match. -/
def findCloseTok (tok : List Char) (allowNL : Bool) : List Char → Option (List Char × List Char)
  | [] => none
  | c :: cs =>
    match matchTokCI tok (c :: cs) with
    | some rest => some ([], rest)
    | none =>
      if !allowNL && c = '\n' then none
      else
        match findCloseTok tok allowNL cs with
        | some (cap, rest) => some (c :: cap, rest)
        | none => none

/-- One-capture BBCode replacement, e.g. `[b](.*?)[/b]` ↦
`<strong>$1</strong>` (`pre`/`post` are the replacement around the
capture). -/
def bbSimpleGo (opn cls pre post : List Char) (allowNL : Bool) : Nat → List Char → List Char
  | 0, cs => cs
  | _, [] => []
  | fuel + 1, c :: cs =>
    match matchTokCI opn (c :: cs) with
    | some afterOpen =>
      match findCloseTok cls allowNL afterOpen with
      | some (cap, rest) =>
        pre ++ cap ++ post ++ bbSimpleGo opn cls pre post allowNL fuel rest
      | none => c :: bbSimpleGo opn cls pre post allowNL fuel cs
    | none => c :: bbSimpleGo opn cls pre post allowNL fuel cs

/-- Entry point for `bbSimpleGo` with sufficient fuel. -/
def bbSimple (opn cls pre post : List Char) (allowNL : Bool) (cs : List Char) : List Char :=
  bbSimpleGo opn cls pre post allowNL (cs.length + 1) cs

/-- The two-capture `[url=(.*?)](.*?)[/url]` ↦ `<a href="$1">$2</a>`
replacement. -/
def bbUrlGo : Nat → List Char → List Char
  | 0, cs => cs
  | _, [] => []
  | fuel + 1, c :: cs =>
    match matchTokCI "[url=".data (c :: cs) with
    | some afterOpen =>
      match findCloseTok "]".data false afterOpen with
      | some (cap1, afterBracket) =>
        match findCloseTok "[/url]".data false afterBracket with
        | some (cap2, rest) =>
          "<a href=\"".data ++ cap1 ++ "\">".data ++ cap2 ++ "</a>".data ++
            bbUrlGo fuel rest
        | none => c :: bbUrlGo fuel cs
      | none => c :: bbUrlGo fuel cs
    | none => c :: bbUrlGo fuel cs

/-- Entry point for `bbUrlGo` with sufficient fuel. -/
def bbUrl (cs : List Char) : List Char := bbUrlGo (cs.length + 1) cs

/-- Capture for `[*](.*?)(?=([*]-token|$))` with the `s` flag: take
characters up to (not including) the next `[*]` token or the end. -/
def takeUntilStar : List Char → List Char × List Char
  | [] => ([], [])
  | c :: cs =>
    match matchTokCI "[*]".data (c :: cs) with
    | some _ => ([], c :: cs)
    | none =>
      let (cap, rest) := takeUntilStar cs
      (c :: cap, rest)

/-- The `[*]` list-item replacement: each `[*]` opens a `<li>` running
to the next `[*]` (kept for the following match) or the end. -/
def liGo : Nat → List Char → List Char
  | 0, cs => cs
  | _, [] => []
  | fuel + 1, c :: cs =>
    match matchTokCI "[*]".data (c :: cs) with
    | some afterOpen =>
      let (cap, rest) := takeUntilStar afterOpen
      "<li>".data ++ cap ++ "</li>".data ++ liGo fuel rest
    | none => c :: liGo fuel cs

/-- Entry point for `liGo` with sufficient fuel. -/
def liRepl (cs : List Char) : List Char := liGo (cs.length + 1) cs

/-- Replace every literal newline by a `<br />` element:
`processed.replace(/\n/g, "<br />")`. -/
def replaceNewlines : List Char → List Char
  | [] => []
  | c :: cs =>
    if c = '\n' then "<br />".data ++ replaceNewlines cs
    else c :: replaceNewlines cs

/-- One alternative of the block-tag test regex
`<(?:p|br|div|img|ul|ol|h\d|blockquote|table|figure)` matching right
after a `<` (case-insensitive, prefix match — no closing delimiter is
required by the regex). -/
def blockAltMatch (cs : List Char) : Bool :=
  (matchTokCI "p".data cs).isSome || (matchTokCI "br".data cs).isSome ||
  (matchTokCI "div".data cs).isSome || (matchTokCI "img".data cs).isSome ||
  (matchTokCI "ul".data cs).isSome || (matchTokCI "ol".data cs).isSome ||
  (match cs with
   | c :: d :: _ => Char.toLower c = 'h' && d.isDigit
   | [_] => false
   | [] => false) ||
  (matchTokCI "blockquote".data cs).isSome ||
  (matchTokCI "table".data cs).isSome ||
  (matchTokCI "figure".data cs).isSome

/-- The code's block-level/media-tag presence test: does the text
contain `<` immediately followed by one of the alternatives? -/
def hasBlockTagMarker : List Char → Bool
  | [] => false
  | c :: cs => (c = '<' && blockAltMatch cs) || hasBlockTagMarker cs

/-- The clan-image macro expansion target. -/
def clanImageBase : List Char :=
  "https://clan.cloudflare.steamstatic.com/images".data

/-- The app-image macro expansion target. -/
def appImageBase : List Char :=
  "https://cdn.cloudflare.steamstatic.com/steam/apps".data

/-- The textual substitutions of `preprocessSteamNewsHtml` (modal
revision) before the final newline conversion: macro expansion,
protocol-relative `src`/`href` rewrites, BBCode expansion. -/
def substitutionsChars (cs : List Char) : List Char :=
  let p1 := replaceAll "\x7bSTEAM_CLAN_IMAGE\x7d".data clanImageBase cs
  let p2 := replaceAll "\x7bSTEAM_APP_IMAGE\x7d".data appImageBase p1
  let p3 := replaceAll "src=\"//".data "src=\"https://".data p2
  let p4 := replaceAll "href=\"//".data "href=\"https://".data p3
  let p5 := bbSimple "[img]".data "[/img]".data "<img src=\"".data "\" />".data false p4
  let p6 := bbUrl p5
  let p7 := bbSimple "[b]".data "[/b]".data "<strong>".data "</strong>".data false p6
  let p8 := bbSimple "[i]".data "[/i]".data "<em>".data "</em>".data false p7
  let p9 := bbSimple "[u]".data "[/u]".data "<u>".data "</u>".data false p8
  let p10 := bbSimple "[s]".data "[/s]".data "<s>".data "</s>".data false p9
  let p11 := bbSimple "[list]".data "[/list]".data "<ul>".data "</ul>".data true p10
  liRepl p11

/-- `preprocessSteamNewsHtml` of the modal revision: substitutions,
then newline-to-`<br />` conversion when no block-tag marker is
present. -/
def preprocessChars (cs : List Char) : List Char :=
  let p := substitutionsChars cs
  if hasBlockTagMarker p then p else replaceNewlines p

/-- String-level `preprocessSteamNewsHtml`. -/
def preprocessSteamNewsHtml (html : String) : String :=
  String.mk (preprocessChars html.data)

/-! ### Platform model: DOM tree, `innerHTML` parser and serializer

`container.innerHTML = html` parses an HTML fragment into a tree of
elements (lower-cased tag names, first-wins attribute lists) and text
nodes; reading `container.innerHTML` serializes it back, escaping text
and attribute values.  The model covers the dialect exercised by the
pipeline: normal, void and raw-text (`script`/`style`) elements,
single/double/unquoted attributes, named character references, bogus
`<!...>` markup skipping.  Tree-construction error recovery beyond
ignoring unmatched close tags (implied end tags, foster parenting) is
not modelled; the inputs of the concrete theorems below are well-formed
fragments on which every standard parser agrees. -/

/-- DOM-like node: element (tag, attributes, children) or text. -/
inductive HNode where
  | elem (tag : List Char) (attrs : List (List Char × List Char)) (children : List HNode)
  | text (s : List Char)

/-- HTML void elements: no children, serialized without a close tag. -/
def voidTags : List (List Char) :=
  ["area", "base", "br", "col", "embed", "hr", "img", "input", "link",
   "meta", "param", "source", "track", "wbr"].map String.data

/-- Raw-text elements: content tokenized as plain text. -/
def rawTextTags : List (List Char) := ["script".data, "style".data]

/-- Case-sensitive literal token match at the head of the input. -/
def matchTokCS : List Char → List Char → Option (List Char)
  | [], cs => some cs
  | _, [] => none
  | p :: ps, c :: cs => if c = p then matchTokCS ps cs else none

/-- Named/numeric character references decoded by the parser model. -/
def entList : List (List Char × Char) :=
  [("amp".data, '&'), ("lt".data, '<'), ("gt".data, '>'),
   ("quot".data, '"'), ("apos".data, '\x27'), ("#39".data, '\x27'),
   ("nbsp".data, ' ')]

/-- Try to decode a character reference right after a `&`. -/
def tryEntityGo : List (List Char × Char) → List Char → Option (Char × List Char)
  | [], _ => none
  | (n, ch) :: rest, cs =>
    match matchTokCS (n ++ [';']) cs with
    | some r => some (ch, r)
    | none => tryEntityGo rest cs

/-- Entity decoding entry point. -/
def tryEntity (cs : List Char) : Option (Char × List Char) := tryEntityGo entList cs

/-- ASCII whitespace as treated by the HTML tokenizer. -/
def isHtmlWs (c : Char) : Bool :=
  c = ' ' || c = '\t' || c = '\n' || c = '\r' || c = '\x0c'

/-- Accumulate text up to the next `<`, decoding character references. -/
def takeTextGo : Nat → List Char → List Char × List Char
  | 0, cs => ([], cs)
  | _, [] => ([], [])
  | fuel + 1, c :: cs =>
    if c = '<' then ([], c :: cs)
    else if c = '&' then
      match tryEntity cs with
      | some (ch, rest) => let (t, r) := takeTextGo fuel rest; (ch :: t, r)
      | none => let (t, r) := takeTextGo fuel cs; (c :: t, r)
    else
      let (t, r) := takeTextGo fuel cs; (c :: t, r)

/-- Accumulate a quoted attribute value up to the quote character,
decoding character references; returns the rest after the quote. -/
def takeQuotedGo (q : Char) : Nat → List Char → List Char × List Char
  | 0, cs => ([], cs)
  | _, [] => ([], [])
  | fuel + 1, c :: cs =>
    if c = q then ([], cs)
    else if c = '&' then
      match tryEntity cs with
      | some (ch, rest) => let (t, r) := takeQuotedGo q fuel rest; (ch :: t, r)
      | none => let (t, r) := takeQuotedGo q fuel cs; (c :: t, r)
    else
      let (t, r) := takeQuotedGo q fuel cs; (c :: t, r)

/-- Parse one attribute value (double-quoted, single-quoted or
unquoted). -/
def parseAttrValue (cs : List Char) : List Char × List Char :=
  match cs with
  | '"' :: r => takeQuotedGo '"' (r.length + 1) r
  | '\x27' :: r => takeQuotedGo '\x27' (r.length + 1) r
  | _ =>
    let v := cs.takeWhile (fun x => !isHtmlWs x && x ≠ '>')
    (v, cs.drop v.length)

/-- Add a parsed attribute; a duplicate name keeps the first value. -/
def addAttr (acc : List (List Char × List Char)) (name v : List Char) :
    List (List Char × List Char) :=
  if acc.any (fun a => a.1 = name) then acc else (name, v) :: acc

/-- Attribute-list scanning inside an open tag, up to the closing `>`. -/
def parseAttrsGo : Nat → List Char → List (List Char × List Char) →
    List (List Char × List Char) × List Char
  | 0, cs, acc => (acc.reverse, cs)
  | _, [], acc => (acc.reverse, [])
  | fuel + 1, c :: cs, acc =>
    if isHtmlWs c then parseAttrsGo fuel cs acc
    else if c = '>' then (acc.reverse, cs)
    else if c = '/' then parseAttrsGo fuel cs acc
    else
      let name := ((c :: cs).takeWhile
        (fun x => !isHtmlWs x && x ≠ '/' && x ≠ '>' && x ≠ '=')).map Char.toLower
      let rest1 := ((c :: cs).drop name.length).dropWhile isHtmlWs
      match rest1 with
      | '=' :: r2 =>
        let r3 := r2.dropWhile isHtmlWs
        let (v, r4) := parseAttrValue r3
        parseAttrsGo fuel r4 (addAttr acc name v)
      | _ => parseAttrsGo fuel rest1 (addAttr acc name [])

/-- Raw-text scanning up to the matching `</tag`, then past its `>`. -/
def findRawEnd (tag : List Char) : Nat → List Char → List Char × List Char
  | 0, cs => (cs, [])
  | _, [] => ([], [])
  | fuel + 1, c :: cs =>
    match matchTokCI ("</".data ++ tag) (c :: cs) with
    | some rest =>
      let r := rest.dropWhile (fun x => x ≠ '>')
      ([], r.drop 1)
    | none =>
      let (t, r) := findRawEnd tag fuel cs
      (c :: t, r)

/-- Tokens produced by the fragment tokenizer. -/
inductive HTok where
  | openTag (tag : List Char) (attrs : List (List Char × List Char))
  | closeTag (tag : List Char)
  | textTok (s : List Char)
deriving Repr

/-- The fragment tokenizer. -/
def tokenizeGo : Nat → List Char → List HTok
  | 0, _ => []
  | _, [] => []
  | fuel + 1, c :: cs =>
    if c = '<' then
      match cs with
      | '/' :: r1 =>
        let name := (r1.takeWhile (fun x => x.isAlphanum)).map Char.toLower
        if name.isEmpty then
          let r := r1.dropWhile (fun x => x ≠ '>')
          tokenizeGo fuel (r.drop 1)
        else
          let r2 := r1.drop name.length
          let r3 := (r2.dropWhile (fun x => x ≠ '>')).drop 1
          HTok.closeTag name :: tokenizeGo fuel r3
      | '!' :: r1 =>
        let r := r1.dropWhile (fun x => x ≠ '>')
        tokenizeGo fuel (r.drop 1)
      | d :: r1 =>
        if d.isAlpha then
          let name := ((d :: r1).takeWhile (fun x => x.isAlphanum)).map Char.toLower
          let r2 := (d :: r1).drop name.length
          let (attrs, r3) := parseAttrsGo (r2.length + 1) r2 []
          if rawTextTags.contains name then
            let (raw, r4) := findRawEnd name (r3.length + 1) r3
            HTok.openTag name attrs :: HTok.textTok raw :: HTok.closeTag name ::
              tokenizeGo fuel r4
          else
            HTok.openTag name attrs :: tokenizeGo fuel r3
        else
          let (t, r) := takeTextGo (cs.length + 1) cs
          HTok.textTok ('<' :: t) :: tokenizeGo fuel r
      | [] => [HTok.textTok ['<']]
    else
      let (t, r) := takeTextGo ((c :: cs).length + 1) (c :: cs)
      HTok.textTok t :: tokenizeGo fuel r

/-- Tree construction: build nodes until the matching close tag
(`stopTag`); void elements take no children; an unmatched close tag is
ignored. -/
def buildGo : Nat → List HTok → Option (List Char) → List HNode × List HTok
  | 0, toks, _ => ([], toks)
  | _, [], _ => ([], [])
  | fuel + 1, t :: rest, stopTag =>
    match t with
    | .textTok s =>
      let (ns, r) := buildGo fuel rest stopTag
      (HNode.text s :: ns, r)
    | .closeTag n =>
      if stopTag = some n then ([], rest)
      else buildGo fuel rest stopTag
    | .openTag n attrs =>
      if voidTags.contains n then
        let (ns, r) := buildGo fuel rest stopTag
        (HNode.elem n attrs [] :: ns, r)
      else
        let (kids, r1) := buildGo fuel rest (some n)
        let (ns, r2) := buildGo fuel r1 stopTag
        (HNode.elem n attrs kids :: ns, r2)

/-- `container.innerHTML = html` over characters. -/
def parseForest (cs : List Char) : List HNode :=
  let toks := tokenizeGo (cs.length + 1) cs
  (buildGo (2 * toks.length + 2) toks none).1

/-- Serializer text escaping (`&`, `<`, `>`). -/
def escapeTextChars : List Char → List Char
  | [] => []
  | c :: cs =>
    (if c = '&' then "&amp;".data
     else if c = '<' then "&lt;".data
     else if c = '>' then "&gt;".data
     else [c]) ++ escapeTextChars cs

/-- Serializer attribute-value escaping (`&`, `"`). -/
def escapeAttrChars : List Char → List Char
  | [] => []
  | c :: cs =>
    (if c = '&' then "&amp;".data
     else if c = '"' then "&quot;".data
     else [c]) ++ escapeAttrChars cs

/-- Serialize an attribute list (always double-quoted). -/
def serializeAttrs : List (List Char × List Char) → List Char
  | [] => []
  | (n, v) :: rest =>
    ' ' :: (n ++ '=' :: '"' :: (escapeAttrChars v ++ '"' :: serializeAttrs rest))

/-- Reading `container.innerHTML`: serialize the forest. -/
def serializeGo : Nat → List HNode → List Char
  | 0, _ => []
  | _, [] => []
  | fuel + 1, n :: ns =>
    (match n with
     | .text s => escapeTextChars s
     | .elem tag attrs kids =>
       '<' :: (tag ++ serializeAttrs attrs ++ ['>']) ++
       (if voidTags.contains tag then []
        else serializeGo fuel kids ++ '<' :: '/' :: (tag ++ ['>']))) ++
    serializeGo fuel ns

/-! ### The sanitizer (`sanitizeNewsHtml`, modal revision)

Shallow embedding of the two phases of the source: removal of the
disallowed wrapper elements (`querySelectorAll("script,style,iframe,
object,embed,link,meta")` + `remove()`), then the snapshot walk over
`querySelectorAll("*")` in document order.  The walk is expressed as a
pre-order recursion; the `underVideo` flag represents the `video`
handler, which — at the moment a `video` element is visited, its
subtree still untouched — removes every descendant `source` whose
original `src` is absent, empty or fails the gate, and rewrites the
`src` of the others (a rewrite later erased anyway when the walk
reaches the `source` and strips its attributes). -/

/-- The seven hard-blocked wrapper tags. -/
def badTags : List (List Char) :=
  ["script", "style", "iframe", "object", "embed", "link", "meta"].map String.data

/-- Phase 1: remove every disallowed wrapper element together with its
whole subtree. -/
def removeDisallowedForest : Nat → List HNode → List HNode
  | 0, _ => []
  | _, [] => []
  | fuel + 1, n :: ns =>
    (match n with
     | .text s => [HNode.text s]
     | .elem tag attrs kids =>
       if badTags.contains tag then []
       else [HNode.elem tag attrs (removeDisallowedForest fuel kids)]) ++
    removeDisallowedForest fuel ns

/-- The fixed tag allow-list of the sanitizer. -/
def allowedTags : List (List Char) :=
  ["a", "b", "strong", "i", "em", "u", "s", "p", "div", "ul", "ol",
   "li", "br", "img", "h1", "h2", "h3", "h4", "h5", "h6", "blockquote",
   "code", "pre", "span", "table", "thead", "tbody", "tr", "td", "th",
   "figure", "figcaption", "video", "source", "hr", "small", "sup",
   "sub"].map String.data

/-- `el.getAttribute(name)`: first attribute with that name. -/
def getAttr (attrs : List (List Char × List Char)) (name : List Char) :
    Option (List Char) :=
  match attrs with
  | [] => none
  | (n, v) :: rest => if n = name then some v else getAttr rest name

/-- The remove-all-attributes loop (`for attr of el.attributes:
el.removeAttribute(attr.name)`): afterwards the element has no
attributes. -/
def stripAttrs (_attrs : List (List Char × List Char)) :
    List (List Char × List Char) := []

/-- Model of a reflected DOM url property getter (`a.href`,
`img.src`): when the content attribute is absent the getter returns
the empty string; resolution of a present attribute against the
document base URL is not modelled (at every call site the property is
read only after all attributes were removed, and the application's
document base is not an `http(s)` URL). -/
def domUrlProp (attrs : List (List Char × List Char)) (name : List Char) :
    List Char :=
  (getAttr attrs name).getD []

/-- The read `(el.getAttribute(name) || el.prop || "").toString()`
(JavaScript `||`: `null` and the empty string fall through). -/
def readUrlAttr (attrs : List (List Char × List Char)) (name : List Char) :
    List Char :=
  match getAttr attrs name with
  | some v => if v.isEmpty then domUrlProp attrs name else v
  | none => domUrlProp attrs name

/-- `absolutizeUrl` over characters. -/
def absolutizeChars (cs : List Char) : List Char :=
  if startsWithSlashSlash cs then "https:".data ++ cs else cs

/-- `el.setAttribute(name, value)`. -/
def setAttrFn (attrs : List (List Char × List Char)) (n v : List Char) :
    List (List Char × List Char) :=
  if (getAttr attrs n).isSome then
    attrs.map (fun a => if a.1 = n then (n, v) else a)
  else attrs ++ [(n, v)]

/-- `el.removeAttribute(name)`. -/
def removeAttrFn (attrs : List (List Char × List Char)) (n : List Char) :
    List (List Char × List Char) :=
  attrs.filter (fun a => a.1 ≠ n)

/-- Processing of one element of the snapshot walk, given its already
sanitized children `sanKids` (the walk reaches the children later in
document order): unwrap when the tag is not allow-listed, otherwise
strip all attributes and run the per-tag handler.  `uv` is true
exactly for elements below a `video` (whose handler removed every
descendant `source` with an absent, empty or gate-failing original
`src`, and whose rewrite of the surviving ones is erased again when
the walk strips the attributes of the `source` itself). -/
def sanitizeElemHead (tag : List Char) (attrs : List (List Char × List Char))
    (uv : Bool) (sanKids : List HNode) : List HNode :=
  if !(allowedTags.contains tag) then
    sanKids
  else
    let stripped := stripAttrs attrs
    if tag = "a".data then
      let href := absolutizeChars (readUrlAttr stripped "href".data)
      let newAttrs :=
        if isHttpUrl (String.mk href) then
          [("href".data, href), ("target".data, "_blank".data),
           ("rel".data, "noopener noreferrer".data)]
        else stripped
      [HNode.elem tag newAttrs sanKids]
    else if tag = "img".data then
      let src := absolutizeChars (readUrlAttr stripped "src".data)
      if isHttpUrl (String.mk src) then
        [HNode.elem tag [("src".data, src), ("loading".data, "lazy".data)] sanKids]
      else []
    else if tag = "video".data then
      let newAttrs :=
        match getAttr stripped "src".data with
        | some s =>
          if !s.isEmpty && isHttpUrl (String.mk s) then
            [("src".data, absolutizeChars s), ("controls".data, "true".data)]
          else stripped
        | none => stripped
      [HNode.elem tag newAttrs sanKids]
    else if tag = "source".data then
      if uv then
        match getAttr attrs "src".data with
        | some s =>
          if !s.isEmpty && isHttpUrl (String.mk s) then
            [HNode.elem tag stripped sanKids]
          else []
        | none => []
      else [HNode.elem tag stripped sanKids]
    else if tag = "table".data then
      [HNode.elem tag (removeAttrFn (setAttrFn stripped "border".data "0".data) "style".data)
        sanKids]
    else [HNode.elem tag stripped sanKids]

/-- Phase 2: the document-order snapshot walk. -/
def sanitizeForest : Nat → Bool → List HNode → List HNode
  | 0, _, _ => []
  | _, _, [] => []
  | fuel + 1, uv, n :: ns =>
    (match n with
     | .text s => [HNode.text s]
     | .elem tag attrs kids =>
       sanitizeElemHead tag attrs uv
         (sanitizeForest fuel (uv || tag = "video".data) kids)) ++
    sanitizeForest fuel uv ns

/-- The sanitized tree the code serializes (phase 1 then phase 2). -/
def sanitizeNewsForest (cs : List Char) : List HNode :=
  let fuel := cs.length * 4 + 16
  sanitizeForest fuel false (removeDisallowedForest fuel (parseForest cs))

/-- String-level `sanitizeNewsHtml`: parse, remove disallowed
wrappers, walk, serialize. -/
def sanitizeNewsHtml (html : String) : String :=
  let fuel := html.data.length * 4 + 16
  String.mk (serializeGo fuel (sanitizeNewsForest html.data))

/-! ### The sanitizer invariant

`CleanNode` captures the guarantees of claim C1 on the output tree:
every element's tag is on the allow-list, and its attribute list is one
the sanitizer itself produced (no attribute survives from the input:
the walk strips all attributes and, in this code, the per-tag
reinstatement only ever leaves the empty list or `border="0"` on a
`table`, since `href`/`src` are read back after the strip). -/

/-- Attribute lists the walk can leave on an element. -/
def attrsClean (tag : List Char) (attrs : List (List Char × List Char)) : Bool :=
  attrs.isEmpty || (tag = "table".data && attrs = [("border".data, "0".data)])

/-- Every element allow-listed, every attribute sanitizer-produced,
recursively. -/
inductive CleanNode : HNode → Prop where
  | text (s : List Char) : CleanNode (.text s)
  | elem (tag : List Char) (attrs : List (List Char × List Char))
      (kids : List HNode)
      (htag : allowedTags.contains tag = true)
      (hattrs : attrsClean tag attrs = true)
      (hkids : ∀ k ∈ kids, CleanNode k) : CleanNode (.elem tag attrs kids)

/-- A forest of clean nodes. -/
def CleanForest (ns : List HNode) : Prop := ∀ n ∈ ns, CleanNode n

/-! ### Claim-side predicate for the newline-conversion condition -/

/-- The block-level/media tag names enumerated by the spec for the
newline-conversion condition. -/
def blockTagNames : List (List Char) :=
  ["p", "br", "div", "img", "ul", "ol", "h1", "h2", "h3", "h4", "h5",
   "h6", "blockquote", "table", "figure"].map String.data

/-- A character that can end a tag name inside markup. -/
def isTagDelim (c : Char) : Bool :=
  c = '>' || c = ' ' || c = '/' || c = '\t' || c = '\n' || c = '\r'

/-- Does `cs` start with the given tag name followed by a delimiter? -/
def tagStartsHere (name cs : List Char) : Bool :=
  match matchTokCI name cs with
  | some (d :: _) => isTagDelim d
  | some [] => false
  | none => false

/-- Definition following the claim's words: the text contains one of
the enumerated block-level or media tags (as an actual tag, i.e. `<`,
the name, then a delimiter). -/
def containsBlockTagSpec : List Char → Bool
  | [] => false
  | c :: cs =>
    (c = '<' && blockTagNames.any (fun n => tagStartsHere n cs)) ||
    containsBlockTagSpec cs

/-! ### Preview image extractors and fallback chains

`steam-news-section.tsx` (news card) and the earlier modal revision
derive a preview/hero image from the item contents with a fallback to
the entry's artwork. -/

/-- `preprocessSteamNewsHtml` of the news-section revision: macro
expansion and protocol-relative `src`/`href` rewrites only. -/
def preprocessSectionChars (cs : List Char) : List Char :=
  let p1 := replaceAll "\x7bSTEAM_CLAN_IMAGE\x7d".data clanImageBase cs
  let p2 := replaceAll "\x7bSTEAM_APP_IMAGE\x7d".data appImageBase p1
  let p3 := replaceAll "src=\"//".data "src=\"https://".data p2
  replaceAll "href=\"//".data "href=\"https://".data p3

/-- `div.querySelector("img")`: attributes of the first `img` element
in document order. -/
def firstImgAttrs : Nat → List HNode → Option (List (List Char × List Char))
  | 0, _ => none
  | _, [] => none
  | fuel + 1, n :: ns =>
    match n with
    | .text _ => firstImgAttrs fuel ns
    | .elem tag attrs kids =>
      if tag = "img".data then some attrs
      else
        match firstImgAttrs fuel kids with
        | some a => some a
        | none => firstImgAttrs fuel ns

/-- `extractFirstImageSrc` of the news-section revision: preprocess,
parse, take the first `img`, read `src` via
`getAttribute("src") || img.src || ""`, and return the raw value
exactly when it parses directly as an `http(s)` URL (no `//` rewrite
happens at this stage); every other case — no `img`, empty read,
parse failure, other scheme — yields `null`.  The surrounding `try`
blocks of the source never fire: the embedding is total. -/
def extractFirstImageSrc (html : String) : Option String :=
  let pp := preprocessSectionChars html.data
  let forest := parseForest pp
  match firstImgAttrs (pp.length * 4 + 16) forest with
  | none => none
  | some attrs =>
    let src := readUrlAttr attrs "src".data
    match urlParseChars src with
    | some u =>
      if u.protocol == "http:" || u.protocol == "https:" then
        some (String.mk src)
      else none
    | none => none

/-- `preprocessSteamNewsHtml` of the earlier modal revision (whose
`SteamNewsModal` derives the hero image from the contents): macros
plus the `[img]`, `[url=]`, `[b]`, `[i]` BBCode expansions. -/
def preprocessModalV2Chars (cs : List Char) : List Char :=
  let p1 := replaceAll "\x7bSTEAM_CLAN_IMAGE\x7d".data clanImageBase cs
  let p2 := replaceAll "\x7bSTEAM_APP_IMAGE\x7d".data appImageBase p1
  let p3 := bbSimple "[img]".data "[/img]".data "<img src=\"".data "\" />".data false p2
  let p4 := bbUrl p3
  let p5 := bbSimple "[b]".data "[/b]".data "<strong>".data "</strong>".data false p4
  bbSimple "[i]".data "[/i]".data "<em>".data "</em>".data false p5

/-- `extractFirstImageSrc` of the earlier modal revision: first `img`
of the parse; requires a non-empty `src` attribute
(`if (img && img.getAttribute("src"))`); accepts a direct `http(s)`
parse of the raw value. -/
def extractFirstImageSrcV2 (html : String) : Option String :=
  let forest := parseForest html.data
  match firstImgAttrs (html.data.length * 4 + 16) forest with
  | none => none
  | some attrs =>
    match getAttr attrs "src".data with
    | some src =>
      if src.isEmpty then none
      else
        match urlParseChars src with
        | some u =>
          if u.protocol == "http:" || u.protocol == "https:" then
            some (String.mk src)
          else none
        | none => none
    | none => none

/-- JavaScript `x || y` over `string | null` operands: `null` and the
empty string are falsy. -/
def jsOrStr (a b : Option String) : Option String :=
  match a with
  | some s => if s.isEmpty then b else some s
  | none => b

/-- JavaScript truthiness of a `string | null` value. -/
def jsTruthy (v : Option String) : Bool :=
  match v with
  | some s => !s.isEmpty
  | none => false

/-- The two artwork fields of a `SteamNewsEntry` used as fallbacks
(both `string | null | undefined` in the source). -/
structure SteamNewsEntryImages where
  libraryImageUrl : Option String
  coverImageUrl : Option String

/-- The news-card preview image:
`extractFirstImageSrc(newsItem.contents) || entry.libraryImageUrl ||
entry.coverImageUrl || null`. -/
def newsCardCover (contents : String)
    (libraryImageUrl coverImageUrl : Option String) : Option String :=
  jsOrStr (jsOrStr (jsOrStr (extractFirstImageSrc contents) libraryImageUrl)
    coverImageUrl) none

/-- The news-card image slot renders a placeholder instead of an image
exactly when the computed cover is falsy. -/
def newsCardShowsPlaceholder (contents : String)
    (libraryImageUrl coverImageUrl : Option String) : Bool :=
  !jsTruthy (newsCardCover contents libraryImageUrl coverImageUrl)

/-- The modal hero image (earlier modal revision): `null` when entry
or item is missing, else
`extractFirstImageSrc(preprocess(contents)) || entry.libraryImageUrl
|| entry.coverImageUrl || null`. -/
def modalHeaderImage (entry : Option SteamNewsEntryImages)
    (contents : Option String) : Option String :=
  match entry, contents with
  | some e, some c =>
    jsOrStr (jsOrStr (jsOrStr
      (extractFirstImageSrcV2 (String.mk (preprocessModalV2Chars c.data)))
      e.libraryImageUrl) e.coverImageUrl) none
  | _, _ => none

/-- Definition following the claim's words: the first available image
source of the fixed fallback chain (a present, non-empty value). -/
def firstAvailableImage : List (Option String) → Option String
  | [] => none
  | some s :: rest => if s.isEmpty then firstAvailableImage rest else some s
  | none :: rest => firstAvailableImage rest

/-- The rendered-contents pipeline of the modal: preprocess, then
sanitize (`sanitizeNewsHtml(preprocessSteamNewsHtml(contents))`). -/
def renderNewsContents (contents : String) : String :=
  sanitizeNewsHtml (preprocessSteamNewsHtml contents)

theorem string_data_append (a b : String) : (a ++ b).data = a.data ++ b.data := by
  cases a; cases b; rfl

theorem append_colon_cancel (a b : String) : (a ++ ":" = b ++ ":") ↔ a = b := by
  constructor
  · intro h
    have hd : a.data ++ [':'] = b.data ++ [':'] := by
      have := congrArg String.data h
      simpa [string_data_append] using this
    have := (List.append_inj' hd rfl).1
    cases a; cases b
    exact congrArg String.mk this
  · intro h; rw [h]

theorem beq_append_colon (a b : String) : (a ++ ":" == b ++ ":") = (a == b) := by
  by_cases h : a = b
  · simp [h]
  · have h2 : ¬(a ++ ":" = b ++ ":") := fun hc => h ((append_colon_cancel a b).mp hc)
    simp [h, h2]

theorem protocol_http_iff (u : UrlParts) :
    (u.protocol == "http:" || u.protocol == "https:") =
      (u.scheme == "http" || u.scheme == "https") := by
  have e1 : ("http:" : String) = "http" ++ ":" := rfl
  have e2 : ("https:" : String) = "https" ++ ":" := rfl
  rw [UrlParts.protocol, e1, e2, beq_append_colon, beq_append_colon]

theorem absolutize_eq_normalizeSpec (s : String) :
    absolutizeUrl s = normalizeSpec s := by
  unfold absolutizeUrl normalizeSpec
  cases h : startsWithSlashSlash s.data with
  | false => simp
  | true =>
    simp only [if_pos rfl]
    obtain ⟨data⟩ := s
    have h2 : startsWithSlashSlash data = true := h
    cases data with
    | nil => simp [startsWithSlashSlash] at h2
    | cons c1 tail =>
      cases tail with
      | nil => simp [startsWithSlashSlash] at h2
      | cons c2 rest =>
        simp only [startsWithSlashSlash, Bool.and_eq_true, decide_eq_true_eq] at h2
        obtain ⟨ha, hb⟩ := h2
        subst ha; subst hb
        apply String.ext
        simp [string_data_append]

theorem getAttr_nil (name : List Char) : getAttr [] name = none := rfl

theorem readUrlAttr_nil (name : List Char) : readUrlAttr [] name = [] := rfl

theorem isHttpUrl_empty : isHttpUrl (String.mk (absolutizeChars (readUrlAttr [] "href".data))) = false := by decide

theorem isHttpUrl_empty_src : isHttpUrl (String.mk (absolutizeChars (readUrlAttr [] "src".data))) = false := by decide

theorem attrsClean_nil (tag : List Char) : attrsClean tag [] = true := rfl

theorem cleanForest_nil : CleanForest [] := by
  intro n hn; exact absurd hn (List.not_mem_nil n)

theorem cleanForest_singleton {n : HNode} (h : CleanNode n) : CleanForest [n] := by
  intro m hm
  rw [List.mem_singleton.mp hm]
  exact h

theorem sanitizeElemHead_clean (tag : List Char)
    (attrs : List (List Char × List Char)) (uv : Bool) (ks : List HNode)
    (hks : CleanForest ks) : CleanForest (sanitizeElemHead tag attrs uv ks) := by
  unfold sanitizeElemHead
  split
  · exact hks
  · rename_i hallow
    have htag : allowedTags.contains tag = true := by
      revert hallow
      cases allowedTags.contains tag <;> simp
    simp only [stripAttrs]
    split
    · rename_i ha
      subst ha
      rw [isHttpUrl_empty]
      simp only [Bool.false_eq_true, if_false]
      exact cleanForest_singleton (CleanNode.elem _ _ _ htag (attrsClean_nil _) hks)
    · split
      · rename_i hne ha
        subst ha
        rw [isHttpUrl_empty_src]
        simp only [Bool.false_eq_true, if_false]
        exact cleanForest_nil
      · split
        · rename_i ha
          subst ha
          rw [getAttr_nil]
          exact cleanForest_singleton (CleanNode.elem _ _ _ htag (attrsClean_nil _) hks)
        · split
          · rename_i ha
            subst ha
            split
            · split
              · rename_i hsrc
                split
                · exact cleanForest_singleton
                    (CleanNode.elem _ _ _ htag (attrsClean_nil _) hks)
                · exact cleanForest_nil
              · exact cleanForest_nil
            · exact cleanForest_singleton
                (CleanNode.elem _ _ _ htag (attrsClean_nil _) hks)
          · split
            · rename_i ha
              subst ha
              exact cleanForest_singleton
                (CleanNode.elem _ _ _ htag (by decide) hks)
            · exact cleanForest_singleton
                (CleanNode.elem _ _ _ htag (attrsClean_nil _) hks)

theorem sanitizeForest_clean (fuel : Nat) :
    ∀ (uv : Bool) (ns : List HNode), CleanForest (sanitizeForest fuel uv ns) := by
  induction fuel with
  | zero =>
    intro uv ns n hn
    simp [sanitizeForest] at hn
  | succ fuel ih =>
    intro uv ns
    cases ns with
    | nil =>
      intro n hn
      simp [sanitizeForest] at hn
    | cons node rest =>
      cases node with
      | text s =>
        intro n hn
        simp only [sanitizeForest] at hn
        rcases List.mem_append.mp hn with h | h
        · rw [List.mem_singleton.mp h]
          exact CleanNode.text s
        · exact ih uv rest n h
      | elem tag attrs kids =>
        intro n hn
        simp only [sanitizeForest] at hn
        rcases List.mem_append.mp hn with h | h
        · exact sanitizeElemHead_clean tag attrs uv _
            (ih (uv || tag = "video".data) kids) n h
        · exact ih uv rest n h

/-- C1: the sanitizer's output tree contains only allow-listed
elements carrying only sanitizer-produced attributes (never an
attribute copied verbatim from the input, hence no event handler and
no unvalidated `href`/`src`); the hard-blocked wrappers `script`,
`style`, `iframe`, `object`, `embed`, `link`, `meta` are all outside
the allow-list, and phase 1 removes them with their entire subtree —
on the concrete input the script element disappears with its text
while the allow-listed `<b>hi</b>` survives. -/
theorem C1_sanitize_allowlist :
    (∀ m : String, CleanForest (sanitizeNewsForest m.data)) ∧
    badTags.all (fun t => !(allowedTags.contains t)) = true ∧
    sanitizeNewsHtml "<script>alert(1)</script><b>hi</b>" = "<b>hi</b>" := by
  refine ⟨?_, by decide, by decide⟩
  intro m
  exact sanitizeForest_clean _ _ _

/-- C6: an element whose tag is not allow-listed is unwrapped — it
disappears and its (subsequently sanitized, order-preserved) children
take its place — while the walk processes any element of the forest by
this head-plus-rest decomposition; concretely the `font` wrapper
vanishes, its allowed `b` child survives with no attributes. -/
theorem C6_unwrap_semantics :
    (∀ (tag : List Char) (attrs : List (List Char × List Char)) (uv : Bool)
        (sanKids : List HNode), allowedTags.contains tag = false →
        sanitizeElemHead tag attrs uv sanKids = sanKids) ∧
    (∀ (fuel : Nat) (uv : Bool) (tag : List Char)
        (attrs : List (List Char × List Char)) (kids ns : List HNode),
        sanitizeForest (fuel + 1) uv (HNode.elem tag attrs kids :: ns) =
          sanitizeElemHead tag attrs uv
            (sanitizeForest fuel (uv || tag = "video".data) kids) ++
          sanitizeForest fuel uv ns) ∧
    sanitizeNewsHtml "<font color=red><b>x</b></font>" = "<b>x</b>" := by
  refine ⟨?_, ?_, by decide⟩
  · intro tag attrs uv sanKids h
    unfold sanitizeElemHead
    rw [h]
    simp
  · intro fuel uv tag attrs kids ns
    rfl

/-- C6 witness: the unwrap equation applied to the `font` element of
the concrete example. -/
theorem C6_unwrap_witness :
    sanitizeElemHead "font".data [("color".data, "red".data)] false
      [HNode.elem "b".data [] [HNode.text ['x']]] =
      [HNode.elem "b".data [] [HNode.text ['x']]] :=
  C6_unwrap_semantics.1 "font".data [("color".data, "red".data)] false
    [HNode.elem "b".data [] [HNode.text ['x']]] (by decide)

/-- C3: contrary to the claim, an `img` element NEVER survives the
sanitizer — the walk strips all attributes before reading `src` back,
so the gate always sees the empty string and the element is removed;
in particular the claimed output `<img src="https://x.test/a.png"
loading="lazy">` is not produced, the element vanishes even though its
`src` passes the spec's gate. -/
theorem C3_img_always_removed :
    (∀ (attrs : List (List Char × List Char)) (uv : Bool) (ks : List HNode),
        sanitizeElemHead "img".data attrs uv ks = []) ∧
    sanitizeNewsHtml "<img src=\x27https://x.test/a.png\x27>" = "" ∧
    sanitizeNewsHtml "<img src=\x27/local/path.png\x27>" = "" ∧
    isSafeAbsoluteUrlSpec "https://x.test/a.png" = true := by
  exact ⟨fun _ _ _ => rfl, by decide, by decide, by decide⟩

/-- C4: contrary to the claim, an `a` element always ends up with an
empty attribute list — `href` is read back only after all attributes
were stripped, so the gate always fails and no `href`, `target` or
`rel` is ever set; the BBCode round trip ends in a bare `<a>`. -/
theorem C4_anchor_loses_href :
    (∀ (attrs : List (List Char × List Char)) (uv : Bool) (ks : List HNode),
        sanitizeElemHead "a".data attrs uv ks = [HNode.elem "a".data [] ks]) ∧
    sanitizeNewsHtml (preprocessSteamNewsHtml
        "[b]Patch[/b] notes [url=https://x.test]here[/url]") =
      "<strong>Patch</strong> notes <a>here</a>" ∧
    preprocessSteamNewsHtml "[b]Patch[/b] notes [url=https://x.test]here[/url]" =
      "<strong>Patch</strong> notes <a href=\"https://x.test\">here</a>" := by
  exact ⟨fun _ _ _ => rfl, by decide, by decide⟩

/-- C5: sanitization is NOT idempotent: a `source` child with a safe
`src` survives the first pass only with its attributes stripped, and
the second pass — finding no `src` on it — removes it. -/
theorem C5_not_idempotent :
    sanitizeNewsHtml "<video><source src=\"https://x.test/v.mp4\"></video>" =
      "<video><source></video>" ∧
    sanitizeNewsHtml (sanitizeNewsHtml
        "<video><source src=\"https://x.test/v.mp4\"></video>") =
      "<video></video>" ∧
    sanitizeNewsHtml (sanitizeNewsHtml
        "<video><source src=\"https://x.test/v.mp4\"></video>") ≠
      sanitizeNewsHtml "<video><source src=\"https://x.test/v.mp4\"></video>" := by
  exact ⟨by decide, by decide, by decide⟩

/-- C2: the scheme gate accepts a string exactly when its
normalization (leading `//` rewritten to an explicit `https` scheme)
parses as a URL whose scheme is `http` or `https`; `javascript:` URLs
and the empty string are rejected, protocol-relative URLs are accepted
after normalization. -/
theorem C2_scheme_gate :
    (∀ s : String, isHttpUrl s = isSafeAbsoluteUrlSpec s) ∧
    isHttpUrl "javascript:alert(1)" = false ∧
    isHttpUrl "//evil.example/x" = true ∧
    absolutizeUrl "//evil.example/x" = "https://evil.example/x" ∧
    isHttpUrl "" = false := by
  refine ⟨?_, by decide, by decide, by decide, by decide⟩
  intro s
  simp only [isHttpUrl, isSafeAbsoluteUrlSpec, absolutize_eq_normalizeSpec]
  cases urlParse (normalizeSpec s) with
  | none => rfl
  | some u => exact protocol_http_iff u

theorem replaceNewlines_no_nl (cs : List Char) : '\n' ∉ replaceNewlines cs := by
  induction cs with
  | nil => simp [replaceNewlines]
  | cons c cs ih =>
    simp only [replaceNewlines]
    split
    · intro h
      rcases List.mem_append.mp h with h | h
      · exact absurd h (by decide)
      · exact ih h
    · rename_i hc
      intro h
      rcases List.mem_cons.mp h with h | h
      · exact hc h.symm
      · exact ih h

/-- C9 (counterexample): the input `<pre>a</pre>` followed by a
newline contains none of the block-level or media tags the claim
enumerates, yet the newline is NOT converted — the code's test matches
the prefix `<p` of `<pre` and suppresses the conversion. -/
theorem C9_counterexample :
    containsBlockTagSpec ("<pre>a</pre>\nx").data = false ∧
    preprocessSteamNewsHtml "<pre>a</pre>\nx" = "<pre>a</pre>\nx" ∧
    '\n' ∈ ("<pre>a</pre>\nx").data ∧
    hasBlockTagMarker (substitutionsChars ("<pre>a</pre>\nx").data) = true := by
  exact ⟨by decide, by decide, by decide, by decide⟩

/-- C9 (amended): after the substitutions, every literal newline is
converted to a `<br />` element exactly when the code's marker test —
`<` followed by one of the prefixes p, br, div, img, ul, ol, h+digit,
blockquote, table, figure, so that e.g. `<pre` or `<picture` also
count as a block tag — finds no match; when it matches, the text is
returned with its newlines untouched. -/
theorem C9_newline_conversion :
    (∀ s : String,
      (hasBlockTagMarker (substitutionsChars s.data) = true →
        preprocessSteamNewsHtml s = String.mk (substitutionsChars s.data)) ∧
      (hasBlockTagMarker (substitutionsChars s.data) = false →
        preprocessSteamNewsHtml s =
          String.mk (replaceNewlines (substitutionsChars s.data)) ∧
        '\n' ∉ (preprocessSteamNewsHtml s).data)) ∧
    preprocessSteamNewsHtml "line1\nline2" = "line1<br />line2" ∧
    preprocessSteamNewsHtml "<p>line1</p>\nline2" = "<p>line1</p>\nline2" := by
  refine ⟨?_, by decide, by decide⟩
  intro s
  constructor
  · intro h
    simp [preprocessSteamNewsHtml, preprocessChars, h]
  · intro h
    have he : preprocessSteamNewsHtml s =
        String.mk (replaceNewlines (substitutionsChars s.data)) := by
      simp [preprocessSteamNewsHtml, preprocessChars, h]
    refine ⟨he, ?_⟩
    rw [he]
    exact replaceNewlines_no_nl _

/-- C9 witness: the amended equivalence applied to the plain-prose
concrete input. -/
theorem C9_witness :
    preprocessSteamNewsHtml "line1\nline2" =
      String.mk (replaceNewlines (substitutionsChars ("line1\nline2").data)) ∧
    '\n' ∉ (preprocessSteamNewsHtml "line1\nline2").data :=
  (C9_newline_conversion.1 "line1\nline2").2 (by decide)

theorem replaceAllGo_zero (pat rp cs : List Char) :
    replaceAllGo pat rp 0 cs = cs := by
  cases cs <;> rfl

theorem bbSimpleGo_zero (opn cls pre post : List Char) (anl : Bool)
    (cs : List Char) : bbSimpleGo opn cls pre post anl 0 cs = cs := by
  cases cs <;> rfl

theorem bbUrlGo_zero (cs : List Char) : bbUrlGo 0 cs = cs := by
  cases cs <;> rfl

theorem liGo_zero (cs : List Char) : liGo 0 cs = cs := by
  cases cs <;> rfl

theorem replaceAllGo_rep (pat rp : List Char)
    (h : ∀ rest : List Char, pat.isPrefixOf ('a' :: rest) = false) :
    ∀ fuel n : Nat,
      replaceAllGo pat rp fuel (List.replicate n 'a') = List.replicate n 'a' := by
  intro fuel
  induction fuel with
  | zero => intro n; exact replaceAllGo_zero pat rp _
  | succ fuel ih =>
    intro n
    cases n with
    | zero => rfl
    | succ n =>
      rw [List.replicate_succ]
      simp only [replaceAllGo, h, Bool.false_eq_true, if_false]
      rw [ih n]

theorem bbSimpleGo_rep (opn cls pre post : List Char) (anl : Bool)
    (h : ∀ rest : List Char, matchTokCI opn ('a' :: rest) = none) :
    ∀ fuel n : Nat,
      bbSimpleGo opn cls pre post anl fuel (List.replicate n 'a') =
        List.replicate n 'a' := by
  intro fuel
  induction fuel with
  | zero => intro n; exact bbSimpleGo_zero opn cls pre post anl _
  | succ fuel ih =>
    intro n
    cases n with
    | zero => rfl
    | succ n =>
      rw [List.replicate_succ]
      simp only [bbSimpleGo, h]
      rw [ih n]

theorem bbUrlGo_rep :
    ∀ fuel n : Nat, bbUrlGo fuel (List.replicate n 'a') = List.replicate n 'a' := by
  have h : ∀ rest : List Char, matchTokCI "[url=".data ('a' :: rest) = none :=
    fun _ => rfl
  intro fuel
  induction fuel with
  | zero => intro n; exact bbUrlGo_zero _
  | succ fuel ih =>
    intro n
    cases n with
    | zero => rfl
    | succ n =>
      rw [List.replicate_succ]
      simp only [bbUrlGo, h]
      rw [ih n]

theorem liGo_rep :
    ∀ fuel n : Nat, liGo fuel (List.replicate n 'a') = List.replicate n 'a' := by
  have h : ∀ rest : List Char, matchTokCI "[*]".data ('a' :: rest) = none :=
    fun _ => rfl
  intro fuel
  induction fuel with
  | zero => intro n; exact liGo_zero _
  | succ fuel ih =>
    intro n
    cases n with
    | zero => rfl
    | succ n =>
      rw [List.replicate_succ]
      simp only [liGo, h]
      rw [ih n]

theorem hasBlockTagMarker_rep (n : Nat) :
    hasBlockTagMarker (List.replicate n 'a') = false := by
  induction n with
  | zero => rfl
  | succ n ih =>
    rw [List.replicate_succ]
    simp only [hasBlockTagMarker, ih, Bool.or_false]
    simp

theorem replaceNewlines_rep (n : Nat) :
    replaceNewlines (List.replicate n 'a') = List.replicate n 'a' := by
  induction n with
  | zero => rfl
  | succ n ih =>
    rw [List.replicate_succ]
    simp only [replaceNewlines]
    rw [if_neg (by decide), ih]

theorem substitutionsChars_rep (n : Nat) :
    substitutionsChars (List.replicate n 'a') = List.replicate n 'a' := by
  simp only [substitutionsChars, replaceAll, bbSimple, bbUrl, liRepl]
  rw [replaceAllGo_rep "\x7bSTEAM_CLAN_IMAGE\x7d".data clanImageBase (fun _ => rfl),
    replaceAllGo_rep "\x7bSTEAM_APP_IMAGE\x7d".data appImageBase (fun _ => rfl),
    replaceAllGo_rep "src=\"//".data "src=\"https://".data (fun _ => rfl),
    replaceAllGo_rep "href=\"//".data "href=\"https://".data (fun _ => rfl),
    bbSimpleGo_rep "[img]".data "[/img]".data "<img src=\"".data "\" />".data false (fun _ => rfl),
    bbUrlGo_rep,
    bbSimpleGo_rep "[b]".data "[/b]".data "<strong>".data "</strong>".data false (fun _ => rfl),
    bbSimpleGo_rep "[i]".data "[/i]".data "<em>".data "</em>".data false (fun _ => rfl),
    bbSimpleGo_rep "[u]".data "[/u]".data "<u>".data "</u>".data false (fun _ => rfl),
    bbSimpleGo_rep "[s]".data "[/s]".data "<s>".data "</s>".data false (fun _ => rfl),
    bbSimpleGo_rep "[list]".data "[/list]".data "<ul>".data "</ul>".data true (fun _ => rfl),
    liGo_rep]

theorem preprocessChars_rep (n : Nat) :
    preprocessChars (List.replicate n 'a') = List.replicate n 'a' := by
  simp only [preprocessChars]
  rw [substitutionsChars_rep, hasBlockTagMarker_rep]
  simp [replaceNewlines_rep]

theorem takeTextGo_rep :
    ∀ fuel n : Nat, n ≤ fuel →
      takeTextGo fuel (List.replicate n 'a') = (List.replicate n 'a', []) := by
  intro fuel
  induction fuel with
  | zero =>
    intro n h
    have : n = 0 := Nat.le_zero.mp h
    subst this
    rfl
  | succ fuel ih =>
    intro n h
    cases n with
    | zero => rfl
    | succ n =>
      rw [List.replicate_succ]
      simp only [takeTextGo]
      rw [if_neg (by decide), if_neg (by decide)]
      rw [ih n (by omega)]

theorem tokenizeGo_nil (fuel : Nat) : tokenizeGo fuel [] = [] := by
  cases fuel <;> rfl

theorem buildGo_nil (fuel : Nat) (stopTag : Option (List Char)) :
    buildGo fuel [] stopTag = ([], []) := by
  cases fuel <;> rfl

theorem tokenizeGo_rep (n : Nat) :
    tokenizeGo (n + 2) (List.replicate (n + 1) 'a') =
      [HTok.textTok (List.replicate (n + 1) 'a')] := by
  rw [List.replicate_succ]
  show tokenizeGo ((n + 1) + 1) ('a' :: List.replicate n 'a') = _
  simp only [tokenizeGo]
  rw [if_neg (by decide)]
  have hlen : ('a' :: List.replicate n 'a').length + 1 = n + 2 := by simp
  rw [hlen]
  have ht : takeTextGo (n + 2) ('a' :: List.replicate n 'a') =
      ('a' :: List.replicate n 'a', []) := by
    have h2 := takeTextGo_rep (n + 2) (n + 1) (by omega)
    rw [List.replicate_succ] at h2
    exact h2
  rw [ht, tokenizeGo_nil]

theorem parseForest_rep (n : Nat) :
    parseForest (List.replicate (n + 1) 'a') =
      [HNode.text (List.replicate (n + 1) 'a')] := by
  unfold parseForest
  have hlen : (List.replicate (n + 1) 'a').length + 1 = n + 2 := by simp
  rw [hlen, tokenizeGo_rep]
  rfl

theorem removeDF_nil (fuel : Nat) : removeDisallowedForest fuel [] = [] := by
  cases fuel <;> rfl

theorem sanitizeForest_nil (fuel : Nat) (uv : Bool) :
    sanitizeForest fuel uv [] = [] := by
  cases fuel <;> rfl

theorem serializeGo_nil (fuel : Nat) : serializeGo fuel [] = [] := by
  cases fuel <;> rfl

theorem removeDF_text (fuel : Nat) (t : List Char) (h : 1 ≤ fuel) :
    removeDisallowedForest fuel [HNode.text t] = [HNode.text t] := by
  cases fuel with
  | zero => omega
  | succ f => simp [removeDisallowedForest, removeDF_nil]

theorem sanitizeForest_text (fuel : Nat) (uv : Bool) (t : List Char)
    (h : 1 ≤ fuel) : sanitizeForest fuel uv [HNode.text t] = [HNode.text t] := by
  cases fuel with
  | zero => omega
  | succ f => simp [sanitizeForest, sanitizeForest_nil]

theorem serializeGo_text (fuel : Nat) (t : List Char) (h : 1 ≤ fuel) :
    serializeGo fuel [HNode.text t] = escapeTextChars t := by
  cases fuel with
  | zero => omega
  | succ f => simp [serializeGo, serializeGo_nil]

theorem escapeTextChars_rep (n : Nat) :
    escapeTextChars (List.replicate n 'a') = List.replicate n 'a' := by
  induction n with
  | zero => rfl
  | succ n ih =>
    rw [List.replicate_succ]
    simp only [escapeTextChars]
    rw [if_neg (by decide), if_neg (by decide), if_neg (by decide), ih]
    rfl

theorem sanitizeNewsHtml_rep (n : Nat) :
    sanitizeNewsHtml (String.mk (List.replicate n 'a')) =
      String.mk (List.replicate n 'a') := by
  cases n with
  | zero => decide
  | succ n =>
    simp only [sanitizeNewsHtml, sanitizeNewsForest]
    have hfuel : (List.replicate (n + 1) 'a').length * 4 + 16 =
        (n + 1) * 4 + 16 := by simp
    rw [hfuel, parseForest_rep]
    rw [removeDF_text _ _ (by omega)]
    rw [sanitizeForest_text _ _ _ (by omega)]
    rw [serializeGo_text _ _ (by omega)]
    rw [escapeTextChars_rep]

theorem preprocess_rep (n : Nat) :
    preprocessSteamNewsHtml (String.mk (List.replicate n 'a')) =
      String.mk (List.replicate n 'a') := by
  unfold preprocessSteamNewsHtml
  have hdata : (String.mk (List.replicate n 'a')).data =
      List.replicate n 'a' := rfl
  rw [hdata, preprocessChars_rep]

theorem pipeline_replicate (n : Nat) :
    renderNewsContents (String.mk (List.replicate n 'a')) =
      String.mk (List.replicate n 'a') := by
  unfold renderNewsContents
  rw [preprocess_rep, sanitizeNewsHtml_rep]

/-- C7 (amended): the pipeline imposes NO input length limit and has
no error channel — its result type is a plain string and an input of
any length is preprocessed and sanitized normally (on plain text the
pipeline is the identity, for every length). -/
theorem C7_no_size_limit :
    ∀ n : Nat, renderNewsContents (String.mk (List.replicate n 'a')) =
      String.mk (List.replicate n 'a') :=
  pipeline_replicate

/-- C7 (counterexample): a 100000-character input — far beyond "tens
of kilobytes" — is sanitized like any short input, producing ordinary
output equal to the input rather than any distinct "input too large"
outcome. -/
theorem C7_counterexample :
    renderNewsContents (String.mk (List.replicate 100000 'a')) =
      String.mk (List.replicate 100000 'a') ∧
    (String.mk (List.replicate 100000 'a')).length = 100000 ∧
    100000 > 65536 :=
  ⟨pipeline_replicate 100000,
    by
      rw [show (String.mk (List.replicate 100000 'a')).length =
        (List.replicate 100000 'a').length from rfl, List.length_replicate],
    by decide⟩

/-- C8 (amended): the extractor is total (the source's `try` blocks
never fire in the embedding) and returns the RAW `src` attribute of
the first `img` in the parse of the textually-preprocessed input
exactly when that raw value itself parses as an `http(s)` URL; no
`//`-to-`https` rewrite is applied at this stage (double-quoted
protocol-relative sources were already rewritten textually by the
preprocessing), and every other case — no `img`, empty or relative
`src`, parse failure, other scheme — yields `null`.  A non-null result
always carries an explicit `http` or `https` scheme. -/
theorem C8_extract_first_image :
    (∀ (html s : String), extractFirstImageSrc html = some s →
      ∃ u : UrlParts, urlParse s = some u ∧
        (u.scheme = "http" ∨ u.scheme = "https")) ∧
    (∀ html : String,
      firstImgAttrs ((preprocessSectionChars html.data).length * 4 + 16)
        (parseForest (preprocessSectionChars html.data)) = none →
      extractFirstImageSrc html = none) ∧
    extractFirstImageSrc "<img src=\x27https://x.test/a.png\x27>" =
      some "https://x.test/a.png" ∧
    extractFirstImageSrc "<img src=\"//cdn.test/a.png\">" =
      some "https://cdn.test/a.png" ∧
    extractFirstImageSrc "<p>no image</p>" = none := by
  refine ⟨?_, ?_, by decide, by decide, by decide⟩
  · intro html s h
    simp only [extractFirstImageSrc] at h
    split at h
    · exact absurd h (by simp)
    · rename_i attrs hF
      split at h
      · rename_i u hU
        split at h
        · rename_i hp
          have hs : String.mk (readUrlAttr attrs "src".data) = s :=
            Option.some.inj h
          subst hs
          refine ⟨u, hU, ?_⟩
          have hp2 : (u.scheme == "http" || u.scheme == "https") = true := by
            rw [← protocol_http_iff]; exact hp
          simpa using hp2
        · exact absurd h (by simp)
      · exact absurd h (by simp)
  · intro html h
    simp only [extractFirstImageSrc]
    rw [h]

/-- C8 (counterexample): a single-quoted protocol-relative image
source passes the spec's `isSafeAbsoluteUrl` gate after normalization,
yet the extractor — which applies no normalization to the attribute it
reads — returns `null` for it. -/
theorem C8_counterexample :
    extractFirstImageSrc "<img src=\x27//evil.example/x\x27>" = none ∧
    firstImgAttrs 100
      (parseForest (preprocessSectionChars
        ("<img src=\x27//evil.example/x\x27>").data)) =
      some [("src".data, "//evil.example/x".data)] ∧
    isSafeAbsoluteUrlSpec "//evil.example/x" = true := by
  exact ⟨by decide, by decide, by decide⟩

/-- C8 witness: the well-formedness guarantee applied to a concrete
successful extraction. -/
theorem C8_witness :
    ∃ u : UrlParts, urlParse "https://x.test/a.png" = some u ∧
      (u.scheme = "http" ∨ u.scheme = "https") :=
  C8_extract_first_image.1 "<img src=\x27https://x.test/a.png\x27>"
    "https://x.test/a.png" (by decide)

theorem jsOr_chain (a b c : Option String) :
    jsOrStr (jsOrStr (jsOrStr a b) c) none = firstAvailableImage [a, b, c] := by
  cases a <;> cases b <;> cases c <;>
    simp only [jsOrStr, firstAvailableImage] <;> split_ifs <;>
    simp_all [jsOrStr, firstAvailableImage]

theorem jsOr_chain2 (b c : Option String) :
    jsOrStr (jsOrStr b c) none = firstAvailableImage [b, c] := by
  cases b <;> cases c <;>
    simp only [jsOrStr, firstAvailableImage] <;> split_ifs <;>
    simp_all [jsOrStr, firstAvailableImage]

theorem placeholder_iff (x : Option String) :
    ((!jsTruthy (jsOrStr x none)) = true) ↔ jsOrStr x none = none := by
  cases x with
  | none => simp [jsOrStr, jsTruthy]
  | some s =>
    by_cases h : s.isEmpty
    · simp [jsOrStr, jsTruthy, h]
    · simp [jsOrStr, jsTruthy, h]

/-- C10: both the news card and the (content-deriving revision of the)
news modal pick the preview/hero image by the fixed fallback chain —
first extracted content image, else `libraryImageUrl`, else
`coverImageUrl`, else nothing; extraction returning `null` silently
falls through to the entry artwork, a missing entry or item yields no
image, and the placeholder is rendered exactly when the whole chain is
empty. -/
theorem C10_preview_fallback_chain :
    (∀ (contents : String) (lib cov : Option String),
      newsCardCover contents lib cov =
        firstAvailableImage [extractFirstImageSrc contents, lib, cov]) ∧
    (∀ (e : SteamNewsEntryImages) (c : String),
      modalHeaderImage (some e) (some c) =
        firstAvailableImage
          [extractFirstImageSrcV2 (String.mk (preprocessModalV2Chars c.data)),
           e.libraryImageUrl, e.coverImageUrl]) ∧
    (∀ c : Option String, modalHeaderImage none c = none) ∧
    (∀ e : Option SteamNewsEntryImages, modalHeaderImage e none = none) ∧
    (∀ (contents : String) (lib cov : Option String),
      extractFirstImageSrc contents = none →
        newsCardCover contents lib cov = firstAvailableImage [lib, cov]) ∧
    (∀ (contents : String) (lib cov : Option String),
      newsCardShowsPlaceholder contents lib cov = true ↔
        newsCardCover contents lib cov = none) := by
  refine ⟨?_, ?_, ?_, ?_, ?_, ?_⟩
  · intro contents lib cov
    exact jsOr_chain _ _ _
  · intro e c
    exact jsOr_chain _ _ _
  · intro c; cases c <;> rfl
  · intro e; cases e <;> rfl
  · intro contents lib cov h
    unfold newsCardCover
    rw [h]
    exact jsOr_chain2 _ _
  · intro contents lib cov
    unfold newsCardShowsPlaceholder newsCardCover
    exact placeholder_iff _

/-- C10 witness: the silent-fallback clause applied to contents with
no image. -/
theorem C10_witness :
    newsCardCover "<p>t</p>" (some "https://lib.test/l.png") none =
      firstAvailableImage [some "https://lib.test/l.png", none] :=
  C10_preview_fallback_chain.2.2.2.2.1 "<p>t</p>"
    (some "https://lib.test/l.png") none (by decide)
